import Mathlib

/-!
Verification of the RuStore opportunity-check core (`parser.js`).

The JavaScript source is shallowly embedded: strings are `List Char`,
JS numbers are `ℚ` where the code only does field arithmetic and `ℝ`
where it uses `Math.log10`, and fallible values (`NaN`) are `Option`.
Regex-based operations (`split(/\s+/)`, `replace(/[...]/g, ...)`,
word-boundary filler replacement, the installs pattern) are embedded as
structurally recursive functions over `List Char` so that every
definition evaluates by `decide`/`rfl`.  Unicode-aware pieces
(`toLowerCase`, `\s`) are modelled on the ASCII range plus the common
extra whitespace code points, which covers every character class the
source manipulates.
-/

/-- Character classes are expressed through code points (`Char.toNat`). -/
def chNat (c : Char) : ℕ := c.toNat

/-- Models the JS regex class `\s` (whitespace): space, tab, LF, VT, FF,
CR, NBSP, LINE/PARA separators, BOM. -/
def jsIsWs (c : Char) : Bool :=
  chNat c = 32 ∨ chNat c = 9 ∨ chNat c = 10 ∨ chNat c = 11 ∨ chNat c = 12 ∨
  chNat c = 13 ∨ chNat c = 160 ∨ chNat c = 8232 ∨ chNat c = 8233 ∨ chNat c = 65279

/-- ASCII uppercase letter `A`-`Z`. -/
def isUpperA (c : Char) : Bool := 65 ≤ chNat c ∧ chNat c ≤ 90

/-- ASCII lowercase letter `a`-`z`. -/
def isLowerA (c : Char) : Bool := 97 ≤ chNat c ∧ chNat c ≤ 122

/-- ASCII digit `0`-`9`. -/
def isDigitA (c : Char) : Bool := 48 ≤ chNat c ∧ chNat c ≤ 57

/-- Models the JS regex word class `\w` = `[A-Za-z0-9_]` (used by `\b`). -/
def isWordChar (c : Char) : Bool := isUpperA c ∨ isLowerA c ∨ isDigitA c ∨ chNat c = 95

/-- Models `String.prototype.toLowerCase` on one character (ASCII range). -/
def jsToLowerChar (c : Char) : Char :=
  if isUpperA c then Char.ofNat (chNat c + 32) else c

/-- Models `String.prototype.toUpperCase` on one character (ASCII range). -/
def jsToUpperChar (c : Char) : Char :=
  if isLowerA c then Char.ofNat (chNat c - 32) else c

/-- `s.toLowerCase()`. -/
def jsToLower (s : List Char) : List Char := s.map jsToLowerChar

/-- `s.toUpperCase()`. -/
def jsToUpper (s : List Char) : List Char := s.map jsToUpperChar

/-- The punctuation class of `parser.js` line 219,
`[,()[\]:;!?'"™®©]` (the two-word guard path: no `&` and no dashes). -/
def punctShort (c : Char) : Bool :=
  chNat c = 44 ∨ chNat c = 40 ∨ chNat c = 41 ∨ chNat c = 91 ∨ chNat c = 93 ∨
  chNat c = 58 ∨ chNat c = 59 ∨ chNat c = 33 ∨ chNat c = 63 ∨ chNat c = 39 ∨
  chNat c = 34 ∨ chNat c = 8482 ∨ chNat c = 174 ∨ chNat c = 169

/-- The punctuation class `[,()[\]:;!?'"&\-–—™®©]` of lines 228, 255,
262 and 290: `punctShort` plus `&`, `-`, en dash, em dash. -/
def punctFull (c : Char) : Bool :=
  punctShort c ∨ chNat c = 38 ∨ chNat c = 45 ∨ chNat c = 8211 ∨ chNat c = 8212

/-- `s.replace(/[...]/g, ' ')`: each character of the class becomes a space. -/
def punctToSpace (p : Char → Bool) (s : List Char) : List Char :=
  s.map (fun c => if p c then ' ' else c)

/-- `w.replace(/[...]/g, '')`: each character of the class is removed. -/
def punctRemove (p : Char → Bool) (s : List Char) : List Char :=
  s.filter (fun c => !p c)

/-- State machine for `s.replace(/\s+/g, ' ')`: each whitespace run
becomes one space.  The flag records whether the previous input
character was part of a whitespace run. -/
def collapseWsGo : Bool → List Char → List Char
  | _, [] => []
  | inRun, c :: t =>
    if jsIsWs c then
      (if inRun then collapseWsGo true t else ' ' :: collapseWsGo true t)
    else c :: collapseWsGo false t

/-- `s.replace(/\s+/g, ' ')`. -/
def collapseWs (s : List Char) : List Char := collapseWsGo false s

/-- Removes a maximal trailing whitespace run (the right half of `trim`). -/
def dropTrailingWs : List Char → List Char
  | [] => []
  | c :: t =>
    if dropTrailingWs t = [] ∧ jsIsWs c then [] else c :: dropTrailingWs t

/-- `s.trim()`. -/
def jsTrim (s : List Char) : List Char := dropTrailingWs (s.dropWhile jsIsWs)

/-- `s.replace(/\s+/g, ' ').trim()` — the normalization suffix that the
query cleanup applies after every substitution stage. -/
def normSpace (s : List Char) : List Char := jsTrim (collapseWs s)

/-- Splitter for `s.split(/\s+/)` restricted to the pieces of positive
length (every consumer of a split in `parser.js` either filters by
length or starts from a trimmed string; empty pieces never survive).
The accumulator holds the current word reversed. -/
def splitWsAux : List Char → List Char → List (List Char)
  | [], acc => if acc = [] then [] else [acc.reverse]
  | c :: t, acc =>
    if jsIsWs c then
      (if acc = [] then splitWsAux t [] else acc.reverse :: splitWsAux t [])
    else splitWsAux t (c :: acc)

/-- The nonempty pieces of `s.split(/\s+/)`. -/
def splitWs (s : List Char) : List (List Char) := splitWsAux s []

/-- `title.trim().split(/\s+/)`: JS yields `[""]` for a blank string and
the nonempty words otherwise. -/
def jsWordsOf (title : List Char) : List (List Char) :=
  if jsTrim title = [] then [[]] else splitWs (jsTrim title)

/-- Case-insensitive prefix test (the `i` regex flag). -/
def ciPre : List Char → List Char → Bool
  | [], _ => true
  | _ :: _, [] => false
  | a :: p, b :: s => jsToLowerChar a = jsToLowerChar b ∧ ciPre p s

/-- Whether a `\b`-delimited occurrence of `phrase` starts at the head of
`s`, given whether the character to the left is a word character.  A JS
word boundary holds where exactly one side is in `\w`. -/
def wordMatchAt (phrase : List Char) (prevW : Bool) (s : List Char) : Bool :=
  phrase ≠ [] ∧ ciPre phrase s ∧
  (prevW ≠ (s.headD ' ' |> isWordChar)) ∧
  (((s.take phrase.length).getLastD ' ' |> isWordChar) ≠
    ((s.drop phrase.length).headD ' ' |> isWordChar) ∨ s.drop phrase.length = [])

/-- Single left-to-right pass of
`s.replace(new RegExp('\\b' + phrase + '\\b', 'gi'), ' ')`.
`skip` counts characters of a match still to be consumed; `prevW`
records whether the previously consumed character was a word character
(for the left `\b`). -/
def rwGo (phrase : List Char) : ℕ → Bool → List Char → List Char
  | _, _, [] => []
  | n + 1, prevW, _ :: t => rwGo phrase n prevW t
  | 0, prevW, c :: t =>
    if wordMatchAt phrase prevW (c :: t) then
      ' ' :: rwGo phrase (phrase.length - 1)
        (((c :: t).take phrase.length).getLastD ' ' |> isWordChar) t
    else c :: rwGo phrase 0 (isWordChar c) t

/-- `s.replace(/\bphrase\b/gi, ' ')` for the filler phrases (all of which
begin and end with letters, so the `\b` tests reduce to word-character
checks on the neighbours). -/
def replaceWordAll (phrase s : List Char) : List Char := rwGo phrase 0 false s

/-- Contiguous-occurrence test: `hay.includes(needle)`. -/
def eqPre : List Char → List Char → Bool
  | [], _ => true
  | _ :: _, [] => false
  | a :: p, b :: s => a = b ∧ eqPre p s

/-- `hay.includes(needle)` — `needle` occurs contiguously in `hay`. -/
def occursIn (needle : List Char) : List Char → Bool
  | [] => needle = []
  | c :: t => eqPre needle (c :: t) ∨ occursIn needle t

/-- The universal stop-word set (`UNIVERSAL_FILLER`), kept in insertion
order because the removal loop iterates the JS `Set` in that order. -/
def UNIVERSAL_FILLER : List (List Char) :=
  ["for android", "for phone", "for mobile", "pro", "free", "app",
   "lite", "plus", "premium", "mod", "the", "a", "an",
   "new", "best", "top", "ultimate", "official"].map String.toList

/-- The category-specific stop-word table (`CATEGORY_FILLER`), a lookup
by exact category string. -/
def CATEGORY_FILLER (category : List Char) : Option (List (List Char)) :=
  if category = "Tools".toList then
    some (["tool", "tools", "utility", "utilities", "helper"].map String.toList)
  else if category = "Communication".toList then
    some (["messenger", "messaging", "chat", "call", "calling"].map String.toList)
  else if category = "Photography".toList then
    some (["photo", "camera", "picture", "pic", "image"].map String.toList)
  else if category = "Music & Audio".toList then
    some (["music", "player", "audio", "sound", "mp3"].map String.toList)
  else if category = "Entertainment".toList then
    some (["entertainment", "fun", "funny"].map String.toList)
  else if category = "Education".toList then
    some (["learn", "learning", "education", "study", "school"].map String.toList)
  else if category = "Health & Fitness".toList then
    some (["health", "fitness", "workout", "exercise"].map String.toList)
  else if category = "Finance".toList then
    some (["finance", "money", "bank", "banking", "pay", "payment"].map String.toList)
  else if category = "Productivity".toList then
    some (["productivity", "organizer", "planner"].map String.toList)
  else if category = "Shopping".toList then
    some (["shopping", "shop", "store", "deals", "coupons", "sale"].map String.toList)
  else if category = "Social".toList then
    some (["social", "network", "friends", "community"].map String.toList)
  else if category = "Travel & Local".toList then
    some (["travel", "hotel", "flights", "booking", "trip", "guide"].map String.toList)
  else if category = "Weather".toList then
    some (["weather", "forecast", "radar", "climate"].map String.toList)
  else if category = "Lifestyle".toList then
    some (["lifestyle", "fashion", "style", "beauty"].map String.toList)
  else if category = "Video Players & Editors".toList then
    some (["video", "player", "editor", "movie", "clip"].map String.toList)
  else if category = "Maps & Navigation".toList then
    some (["maps", "map", "navigation", "gps", "directions"].map String.toList)
  else if category = "News & Magazines".toList then
    some (["news", "magazine", "headlines", "daily"].map String.toList)
  else if category = "Food & Drink".toList then
    some (["food", "recipe", "restaurant", "cooking", "delivery"].map String.toList)
  else if category = "Business".toList then
    some (["business", "office", "corporate", "enterprise"].map String.toList)
  else none

/-- Whether two adjacent characters are lowercase-then-uppercase
(the regex `/[a-z][A-Z]/`). -/
def hasCamelPair : List Char → Bool
  | a :: b :: t => (isLowerA a ∧ isUpperA b) ∨ hasCamelPair (b :: t)
  | _ => false

/-- `isBrandToken(originalWord)`: camel-case pair, all-caps of length ≥ 2,
letters mixed with digits, or a trademark glyph. -/
def isBrandToken (w : List Char) : Bool :=
  hasCamelPair w ∨
  (2 ≤ w.length ∧ w.all isUpperA) ∨
  (w.any (fun c => isUpperA c ∨ isLowerA c) ∧ w.any isDigitA) ∨
  w.any (fun c => chNat c = 8482 ∨ chNat c = 174 ∨ chNat c = 169)

/-- The protected-token set of `cleanSearchQuery`: brand tokens and the
first word, punctuation-stripped and lower-cased (`words.forEach` at
lines 227-233; only membership is used, so a list stands for the Set). -/
def protectedWordsOf (words : List (List Char)) : List (List Char) :=
  (words.enum).foldl
    (fun acc p =>
      let cl := punctRemove punctFull p.2
      if cl = [] then acc
      else if isBrandToken cl ∨ p.1 = 0 then jsToLower cl :: acc else acc)
    []

/-- The universal stop-word loop of lines 238-243: each phrase is
removed as a `\b`-delimited whole word unless it is a protected single
word.  (The regex-escaping of the phrase is the identity on these
letter-and-space phrases.) -/
def universalFillerPass (protectedWords : List (List Char)) (s : List Char) : List Char :=
  UNIVERSAL_FILLER.foldl
    (fun s2 phrase =>
      let phraseWords := splitWs phrase
      if phraseWords.length = 1 ∧ phraseWords.headD [] ∈ protectedWords then s2
      else replaceWordAll phrase s2)
    s

/-- The category stop-word loop of lines 246-252. -/
def categoryFillerPass (category : List Char) (protectedWords : List (List Char))
    (s : List Char) : List Char :=
  match CATEGORY_FILLER category with
  | none => s
  | some fillers =>
    fillers.foldl
      (fun s2 word => if word ∈ protectedWords then s2 else replaceWordAll word s2)
      s

/-- `cleanSearchQuery(title, category)` (lines 214-266). -/
def cleanSearchQuery (title category : List Char) : List Char :=
  let words := jsWordsOf title
  if words.length ≤ 2 then
    let cleaned := normSpace (punctToSpace punctShort title)
    if 2 ≤ cleaned.length then cleaned else title
  else
    let protectedWords := protectedWordsOf words
    let cleaned := categoryFillerPass category protectedWords
      (universalFillerPass protectedWords (jsToLower title))
    let c3 := normSpace (punctToSpace punctFull cleaned)
    let remainingWords := (splitWs c3).filter (fun w => 2 ≤ w.length)
    let c4 :=
      if remainingWords.length < 2 ∨ c3.length < 3 then
        jsToLower (normSpace (punctToSpace punctFull title))
      else c3
    if 2 ≤ c4.length then c4 else title

/-- No two adjacent whitespace characters (part of being
whitespace-collapsed). -/
def noTwoWs : List Char → Bool
  | a :: b :: t => (!(jsIsWs a && jsIsWs b)) && noTwoWs (b :: t)
  | _ => true

/-- The last element, as a structurally recursive function. -/
def lastOpt : List Char → Option Char
  | [] => none
  | [c] => some c
  | _ :: c :: t => lastOpt (c :: t)

/-- A string is whitespace-collapsed: every whitespace character is a
plain space, no two spaces are adjacent, and it neither starts nor ends
with whitespace. -/
def wsNormalized (s : List Char) : Bool :=
  s.all (fun c => !jsIsWs c || c = ' ') && noTwoWs s &&
  Option.all (fun c => !jsIsWs c) s.head? &&
  Option.all (fun c => !jsIsWs c) (lastOpt s)

/-- No ASCII uppercase letter (the lower-cased invariant). -/
def noUpperStr (s : List Char) : Bool := s.all (fun c => !isUpperA c)

/-- No character of the full punctuation class survives. -/
def noPunctStr (s : List Char) : Bool := s.all (fun c => !punctFull c)

/-- The three title kinds of `classifyTitle`. -/
inductive TitleType where
  | brand
  | descriptive
  | mixed
deriving DecidableEq

/-- The record returned by `classifyTitle`. -/
structure TitleClassification where
  type : TitleType
  brandWords : List (List Char)
  otherWords : List (List Char)
deriving DecidableEq

/-- `classifyTitle(title)` (lines 284-313).  The loop accumulates the
punctuation-stripped tokens into brand and other lists, then the
universal fillers are dropped from the other list. -/
def classifyTitle (title : List Char) : TitleClassification :=
  let words := jsWordsOf title
  let acc := words.foldl
    (fun (acc : List (List Char) × List (List Char)) w =>
      let cl := punctRemove punctFull w
      if cl = [] then acc
      else if isBrandToken cl then (acc.1 ++ [cl], acc.2) else (acc.1, acc.2 ++ [cl]))
    ([], [])
  let brandWords := acc.1
  let meaningfulOther := acc.2.filter
    (fun w => !(jsToLower w ∈ UNIVERSAL_FILLER) ∧ 2 ≤ (jsToLower w).length)
  if brandWords ≠ [] ∧ meaningfulOther = [] then
    ⟨TitleType.brand, brandWords, meaningfulOther⟩
  else if brandWords ≠ [] ∧ meaningfulOther ≠ [] then
    ⟨TitleType.mixed, brandWords, meaningfulOther⟩
  else
    ⟨TitleType.descriptive, brandWords, meaningfulOther⟩

/-- `RELEVANCE_THRESHOLD = 0.15`. -/
def RELEVANCE_THRESHOLD : ℚ := 0.15

/-- The token set used by `wordJaccard`: lower-case, split on
whitespace, keep tokens of length ≥ 2. -/
def jaccardTokens (s : List Char) : Finset (List Char) :=
  ((splitWs (jsToLower s)).filter (fun w => 2 ≤ w.length)).toFinset

/-- `wordJaccard(a, b)` (lines 360-372): `|A ∩ B| / |A ∪ B|`, and 0 when
either token set is empty. -/
def wordJaccard (a b : List Char) : ℚ :=
  let setA := jaccardTokens a
  let setB := jaccardTokens b
  if setA = ∅ ∨ setB = ∅ then 0
  else ((setA ∩ setB).card : ℚ) / ((setA ∪ setB).card : ℚ)

/-- `substringMatch(a, b)` (lines 378-383): both sides lower-cased and
trimmed, both of length ≥ 2, and one contains the other. -/
def substringMatch (a b : List Char) : Bool :=
  let al := jsTrim (jsToLower a)
  let bl := jsTrim (jsToLower b)
  if al.length < 2 ∨ bl.length < 2 then false
  else occursIn bl al ∨ occursIn al bl

/-- A RuStore competitor card.  `relevance`/`relevant` start absent
(`undefined` in JS) and are assigned by the scoring loop. -/
structure Competitor where
  name : List Char
  category : List Char
  rating : Option ℚ
  url : List Char
  relevance : Option ℚ := none
  relevant : Option Bool := none
deriving DecidableEq

/-- `calculateRelevance(competitor, searchQuery, cleanedTitle)`
(lines 394-415). -/
def calculateRelevance (competitor : Competitor) (searchQuery cleanedTitle : List Char) : ℚ :=
  let jaccardQuery := wordJaccard competitor.name searchQuery
  let jaccardOriginal := wordJaccard competitor.name cleanedTitle
  let bestJaccard := max jaccardQuery jaccardOriginal
  let score := bestJaccard * 0.6
  let score :=
    if substringMatch competitor.name searchQuery ∨
        substringMatch competitor.name cleanedTitle then score + 0.3 else score
  let score := if competitor.rating ≠ none then score + 0.1 else score
  min 1 score

/-- The relevance-scoring loop of `checkRuStore` (lines 520-523): it
assigns `c.relevance` and `c.relevant` on the records of the input
array, so the resulting list stands for that same array after the loop. -/
def applyRelevance (searchQuery cleaned : List Char) (competitors : List Competitor) :
    List Competitor :=
  competitors.map fun c =>
    let r := calculateRelevance c searchQuery cleaned
    { c with relevance := some r, relevant := some (decide (RELEVANCE_THRESHOLD ≤ r)) }

/-- The natural number denoted by a digit string. -/
def natDigits (ds : List Char) : ℕ := ds.foldl (fun n c => 10 * n + (chNat c - 48)) 0

/-- `parseFloat` restricted to strings over digits and `.` (all that the
installs regex can capture): integer digits, then optionally one dot and
fraction digits; anything after a second dot is ignored.  `none` is JS
`NaN` (no leading digits and no `.digits` prefix). -/
def jsParseFloatDD (s : List Char) : Option ℚ :=
  let ipart := s.takeWhile isDigitA
  let after := s.drop ipart.length
  if ipart = [] then
    match after with
    | '.' :: rest =>
      let fd := rest.takeWhile isDigitA
      if fd = [] then none
      else some ((natDigits fd : ℚ) / 10 ^ fd.length)
    | _ => none
  else
    match after with
    | '.' :: rest =>
      let fd := rest.takeWhile isDigitA
      some ((natDigits ipart : ℚ) + (natDigits fd : ℚ) / 10 ^ fd.length)
    | _ => some (natDigits ipart : ℚ)

/-- The regex `^([\d.]+)\s*([KMBT]?)$` (line 579): greedy matching is
exact here because none of `\s`, `K/M/B/T` or the string end can match
a digit or dot.  Returns the captured number string and optional suffix. -/
def matchInstalls (s : List Char) : Option (List Char × Option Char) :=
  let p1 := s.takeWhile (fun c => isDigitA c ∨ c = '.')
  if p1 = [] then none
  else
    match (s.drop p1.length).dropWhile jsIsWs with
    | [] => some (p1, none)
    | [c] => if c = 'K' ∨ c = 'M' ∨ c = 'B' ∨ c = 'T' then some (p1, some c) else none
    | _ => none

/-- The multiplier table of line 583. -/
def installsMultiplier : Option Char → ℚ
  | none => 1
  | some c =>
    if c = 'K' then 1000 else if c = 'M' then 1000000
    else if c = 'B' then 1000000000 else if c = 'T' then 1000000000000 else 1

/-- `parseInstalls(installsStr)` (lines 576-585).  `none` is the `NaN`
that `parseFloat` produces on an all-dots capture; every other branch
returns a number. -/
def parseInstalls (installsStr : List Char) : Option ℚ :=
  if installsStr = [] ∨ installsStr = "N/A".toList then some 0
  else
    let str := jsToUpper (jsTrim (punctRemove (fun c => c = '+' ∨ c = ',') installsStr))
    match matchInstalls str with
    | none => some 0
    | some (numStr, suffix) =>
      match jsParseFloatDD numStr with
      | none => none
      | some num => some (num * installsMultiplier suffix)

/-- The `installs` argument of `calculateOpportunityScore` is either the
raw AppBrain string or a number (`typeof installs === 'string'`). -/
inductive Installs where
  | str (s : List Char)
  | num (x : ℝ)

/-- `x || 0` on a JS number (`0` and `NaN` are falsy; over `ℝ` only the
zero case is reachable, and it is the identity there too). -/
noncomputable def jsOrZero (x : ℝ) : ℝ := if x = 0 then 0 else x

/-- The `installsNum` of line 611, with `none` standing for `NaN`. -/
noncomputable def installsNum : Installs → Option ℝ
  | Installs.str s => (parseInstalls s).map (fun q => (q : ℝ))
  | Installs.num x => some (jsOrZero x)

/-- The argument record of `calculateOpportunityScore`. -/
structure ScoreInput where
  competitorsCount : ℝ
  avgRating : Option ℝ
  maxRating : Option ℝ
  gpRating : ℝ
  installs : Installs

/-- `calculateOpportunityScore` (lines 600-627): five normalized factors,
weighted sum, `Math.round`, clamp to `[0, 100]`.  `Math.round x` is
`⌊x + 1/2⌋`, which is Mathlib's `round`.  A `NaN` installs number fails
the `> 0` test, giving factor 3 the value 0. -/
noncomputable def calculateOpportunityScore (r : ScoreInput) : ℤ :=
  let f1 : ℝ := max 0 (1 - r.competitorsCount / 20)
  let f2 : ℝ := match r.avgRating with
    | none => 0.7
    | some avg => max 0 (1 - (avg - 2) / 3)
  let f3 : ℝ := match installsNum r.installs with
    | none => 0
    | some i => if 0 < i then min 1 (Real.logb 10 (i + 1) / 9) else 0
  let f4 : ℝ := max 0 (min 1 ((r.gpRating - 2.5) / 2))
  let f5 : ℝ := match r.maxRating with
    | none => 1.0
    | some mx => max 0 (1 - (mx - 2) / 3)
  let raw := 0.30 * f1 + 0.25 * f2 + 0.25 * f3 + 0.10 * f4 + 0.10 * f5
  let score := round (100 * raw)
  max 0 (min 100 score)

/-- `RUSTORE_SEARCH_URL`. -/
def RUSTORE_SEARCH_URL : List Char := "https://www.rustore.ru/catalog/search?query=".toList

/-- The RFC 3986 unreserved characters that `encodeURIComponent` leaves
intact: letters, digits, `- _ . ! ~ * ' ( )`. -/
def uriUnreserved (c : Char) : Bool :=
  isUpperA c ∨ isLowerA c ∨ isDigitA c ∨
  chNat c = 45 ∨ chNat c = 95 ∨ chNat c = 46 ∨ chNat c = 33 ∨
  chNat c = 126 ∨ chNat c = 42 ∨ chNat c = 39 ∨ chNat c = 40 ∨ chNat c = 41

/-- Uppercase hexadecimal digit. -/
def hexDigit (n : ℕ) : Char := Char.ofNat (if n < 10 then 48 + n else 55 + n)

/-- The UTF-8 bytes of a code point. -/
def utf8Bytes (n : ℕ) : List ℕ :=
  if n < 128 then [n]
  else if n < 2048 then [192 + n / 64, 128 + n % 64]
  else if n < 65536 then [224 + n / 4096, 128 + n / 64 % 64, 128 + n % 64]
  else [240 + n / 262144, 128 + n / 4096 % 64, 128 + n / 64 % 64, 128 + n % 64]

/-- `encodeURIComponent(s)`. -/
def encodeURIComponent (s : List Char) : List Char :=
  (s.map fun c =>
    if uriUnreserved c then [c]
    else ((utf8Bytes (chNat c)).map fun b => ['%', hexDigit (b / 16), hexDigit (b % 16)]).flatten).flatten

/-- The report record returned by `checkRuStore`. -/
structure OpportunityReport where
  searchQuery : List Char
  searchUrl : List Char
  competitorsCount : ℕ
  topCompetitors : List Competitor
  avgRating : Option ℚ
  maxRating : Option ℚ
  opportunityScore : ℤ

/-- `(b.rating || 0)` in the top-competitor comparator. -/
def ratingOr0 (c : Competitor) : ℚ := c.rating.getD 0

/-- The decision pipeline of `checkRuStore(title, category, gpRating,
installs)` (lines 417-567), embedded over its two external
collaborators: `translate` (the MyMemory call with its fallback) and
`candidates` (the competitor cards scraped from the search page).
Browser navigation, logging and timing are outside the pure core.  When
the scrape finds no cards the code returns early with the same record
this pipeline produces on an empty candidate list. -/
noncomputable def checkRuStore (title category : List Char) (gpRating : ℝ)
    (installs : List Char) (translate : List Char → List Char)
    (candidates : List Competitor) : OpportunityReport :=
  let classification := classifyTitle title
  let cleaned := cleanSearchQuery title category
  let searchQuery :=
    if classification.type = TitleType.descriptive then translate cleaned else cleaned
  let searchUrl := RUSTORE_SEARCH_URL ++ encodeURIComponent searchQuery
  let competitors := applyRelevance searchQuery cleaned candidates
  let relevant := competitors.filter (fun c => c.relevant = some true)
  let competitorsCount := relevant.length
  let ratingsOnly := (relevant.filter (fun c => c.rating ≠ none)).filterMap (fun c => c.rating)
  let avgRating : Option ℚ :=
    if 0 < ratingsOnly.length then
      some ((round ((ratingsOnly.foldl (· + ·) 0 / (ratingsOnly.length : ℚ)) * 10) : ℤ) / 10)
    else none
  let maxRating : Option ℚ :=
    match ratingsOnly with
    | [] => none
    | x :: xs => some (xs.foldl max x)
  let topCompetitors :=
    (relevant.mergeSort (fun a b => ratingOr0 b ≤ ratingOr0 a)).take 5
  let opportunityScore := calculateOpportunityScore
    { competitorsCount := (competitorsCount : ℝ)
      avgRating := avgRating.map (fun q => (q : ℝ))
      maxRating := maxRating.map (fun q => (q : ℝ))
      gpRating := jsOrZero gpRating
      installs := Installs.str (if installs = [] then "N/A".toList else installs) }
  { searchQuery := searchQuery
    searchUrl := searchUrl
    competitorsCount := competitorsCount
    topCompetitors := topCompetitors
    avgRating := avgRating
    maxRating := maxRating
    opportunityScore := opportunityScore }


/-- A concrete competitor record used by the concrete instantiations
below: a rated listing whose name coincides with the query. -/
def sampleCompetitor : Competitor :=
  { name := "abc".toList, category := [], rating := some 4, url := "u".toList }

theorem char_toNat_ofNat (n : ℕ) (h : n < 55296) : (Char.ofNat n).toNat = n := by
  have hv : n.isValidChar := Or.inl h
  simp only [Char.ofNat, dif_pos hv, Char.ofNatAux, Char.toNat]
  rfl

theorem mem_collapseWsGo {c : Char} :
    ∀ (b : Bool) (s : List Char), c ∈ collapseWsGo b s → c = ' ' ∨ c ∈ s := by
  intro b s
  induction s generalizing b with
  | nil => intro h; exact absurd h (by simp [collapseWsGo])
  | cons a t ih =>
    intro h
    simp only [collapseWsGo] at h
    split at h
    · split at h
      · rcases ih _ h with h1 | h1
        · exact Or.inl h1
        · exact Or.inr (List.mem_cons_of_mem _ h1)
      · rcases List.mem_cons.mp h with h1 | h1
        · exact Or.inl h1
        · rcases ih _ h1 with h2 | h2
          · exact Or.inl h2
          · exact Or.inr (List.mem_cons_of_mem _ h2)
    · rcases List.mem_cons.mp h with h1 | h1
      · exact Or.inr (h1 ▸ List.mem_cons_self a t)
      · rcases ih _ h1 with h2 | h2
        · exact Or.inl h2
        · exact Or.inr (List.mem_cons_of_mem _ h2)

theorem ws_mem_collapseWsGo {c : Char} :
    ∀ (b : Bool) (s : List Char), c ∈ collapseWsGo b s → jsIsWs c = true → c = ' ' := by
  intro b s
  induction s generalizing b with
  | nil => intro h; exact absurd h (by simp [collapseWsGo])
  | cons a t ih =>
    intro h hw
    simp only [collapseWsGo] at h
    split at h
    · split at h
      · exact ih _ h hw
      · rcases List.mem_cons.mp h with h1 | h1
        · exact h1
        · exact ih _ h1 hw
    · rcases List.mem_cons.mp h with h1 | h1
      · subst h1; simp_all
      · exact ih _ h1 hw

theorem collapseWsGo_true_head :
    ∀ (s : List Char) (c : Char), (collapseWsGo true s).head? = some c → jsIsWs c = false := by
  intro s
  induction s with
  | nil => intro c h; simp [collapseWsGo] at h
  | cons a t ih =>
    intro c h
    simp only [collapseWsGo] at h
    split at h
    · exact ih c h
    · simp only [List.head?_cons, Option.some.injEq] at h
      subst h
      simpa using ‹¬jsIsWs a = true›

theorem noTwoWs_cons (a : Char) (l : List Char)
    (h1 : ∀ d, l.head? = some d → ¬(jsIsWs a = true ∧ jsIsWs d = true))
    (h2 : noTwoWs l = true) : noTwoWs (a :: l) = true := by
  cases l with
  | nil => rfl
  | cons b t =>
    have := h1 b rfl
    simp only [noTwoWs, Bool.and_eq_true, Bool.not_eq_true']
    exact ⟨by simp_all [Bool.and_eq_true], h2⟩

theorem noTwoWs_collapseWsGo : ∀ (s : List Char) (b : Bool), noTwoWs (collapseWsGo b s) = true := by
  intro s
  induction s with
  | nil => intro b; rfl
  | cons a t ih =>
    intro b
    simp only [collapseWsGo]
    split
    · split
      · exact ih true
      · refine noTwoWs_cons _ _ (fun d hd hcon => ?_) (ih true)
        have := collapseWsGo_true_head t d hd
        simp_all
    · refine noTwoWs_cons _ _ (fun d hd hcon => ?_) (ih false)
      simp_all

theorem head_dropWhile (p : Char → Bool) :
    ∀ (l : List Char) (c : Char), (l.dropWhile p).head? = some c → p c = false := by
  intro l
  induction l with
  | nil => intro c h; simp [List.dropWhile] at h
  | cons a t ih =>
    intro c h
    rw [List.dropWhile_cons] at h
    split at h
    · exact ih c h
    · simp only [List.head?_cons, Option.some.injEq] at h
      subst h
      simpa using ‹¬p a = true›

theorem mem_dropWhile {c : Char} (p : Char → Bool) (l : List Char)
    (h : c ∈ l.dropWhile p) : c ∈ l :=
  (List.dropWhile_sublist p (l := l)).mem h

theorem noTwoWs_tail (a : Char) (l : List Char) (h : noTwoWs (a :: l) = true) :
    noTwoWs l = true := by
  cases l with
  | nil => rfl
  | cons b t => simp only [noTwoWs, Bool.and_eq_true] at h; exact h.2

theorem noTwoWs_pair (a d : Char) (l : List Char) (h : noTwoWs (a :: l) = true)
    (hd : l.head? = some d) : ¬(jsIsWs a = true ∧ jsIsWs d = true) := by
  cases l with
  | nil => simp at hd
  | cons b t =>
    simp only [List.head?_cons, Option.some.injEq] at hd
    subst hd
    simp only [noTwoWs, Bool.and_eq_true, Bool.not_eq_true', Bool.and_eq_false_iff] at h
    rcases h.1 with h1 | h1 <;> simp_all

theorem noTwoWs_dropWhile (p : Char → Bool) :
    ∀ (l : List Char), noTwoWs l = true → noTwoWs (l.dropWhile p) = true := by
  intro l
  induction l with
  | nil => intro h; exact h
  | cons a t ih =>
    intro h
    rw [List.dropWhile_cons]
    split
    · exact ih (noTwoWs_tail _ _ h)
    · exact h

theorem lastOpt_cons (a : Char) (l : List Char) :
    lastOpt (a :: l) = if l = [] then some a else lastOpt l := by
  cases l with
  | nil => rfl
  | cons b t => simp [lastOpt]

theorem mem_dropTrailingWs {c : Char} :
    ∀ (l : List Char), c ∈ dropTrailingWs l → c ∈ l := by
  intro l
  induction l with
  | nil => intro h; exact h
  | cons a t ih =>
    intro h
    simp only [dropTrailingWs] at h
    split at h
    · exact absurd h (List.not_mem_nil c)
    · rcases List.mem_cons.mp h with h1 | h1
      · exact h1 ▸ List.mem_cons_self a t
      · exact List.mem_cons_of_mem _ (ih h1)

theorem dropTrailingWs_head (l : List Char) :
    (dropTrailingWs l).head? = none ∨ (dropTrailingWs l).head? = l.head? := by
  cases l with
  | nil => exact Or.inl rfl
  | cons a t =>
    simp only [dropTrailingWs]
    split
    · exact Or.inl rfl
    · exact Or.inr rfl

theorem noTwoWs_dropTrailingWs :
    ∀ (l : List Char), noTwoWs l = true → noTwoWs (dropTrailingWs l) = true := by
  intro l
  induction l with
  | nil => intro h; exact h
  | cons a t ih =>
    intro h
    simp only [dropTrailingWs]
    split
    · rfl
    · refine noTwoWs_cons _ _ (fun d hd => ?_) (ih (noTwoWs_tail _ _ h))
      rcases dropTrailingWs_head t with h1 | h1
      · rw [h1] at hd; exact absurd hd (by simp)
      · rw [h1] at hd; exact noTwoWs_pair _ _ _ h hd

theorem lastOpt_dropTrailingWs :
    ∀ (l : List Char) (c : Char), lastOpt (dropTrailingWs l) = some c → jsIsWs c = false := by
  intro l
  induction l with
  | nil => intro c h; simp [dropTrailingWs, lastOpt] at h
  | cons a t ih =>
    intro c h
    simp only [dropTrailingWs] at h
    split at h
    · simp [lastOpt] at h
    · rw [lastOpt_cons] at h
      split at h
      · rename_i hcond hnil
        simp only [Option.some.injEq] at h
        subst h
        rw [hnil] at hcond
        simpa using fun hw => hcond ⟨rfl, hw⟩
      · exact ih c h

theorem mem_normSpace {c : Char} (s : List Char) (h : c ∈ normSpace s) : c = ' ' ∨ c ∈ s := by
  unfold normSpace jsTrim at h
  exact mem_collapseWsGo false s (mem_dropWhile _ _ (mem_dropTrailingWs _ h))

theorem wsNormalized_normSpace (s : List Char) : wsNormalized (normSpace s) = true := by
  unfold wsNormalized
  refine Bool.and_eq_true_iff.mpr ⟨Bool.and_eq_true_iff.mpr ⟨Bool.and_eq_true_iff.mpr ⟨?_, ?_⟩, ?_⟩, ?_⟩
  · rw [List.all_eq_true]
    intro c hc
    by_cases hw : jsIsWs c = true
    · have : c = ' ' := by
        unfold normSpace jsTrim at hc
        exact ws_mem_collapseWsGo false s
          (mem_dropWhile _ _ (mem_dropTrailingWs _ hc)) hw
      simp [this]
    · simp [hw]
  · unfold normSpace jsTrim
    exact noTwoWs_dropTrailingWs _ (noTwoWs_dropWhile _ _ (noTwoWs_collapseWsGo _ false))
  · unfold normSpace jsTrim
    rcases dropTrailingWs_head ((collapseWs s).dropWhile jsIsWs) with h1 | h1
    · rw [h1]; rfl
    · rw [h1]
      cases h2 : ((collapseWs s).dropWhile jsIsWs).head? with
      | none => rfl
      | some c => simpa using head_dropWhile jsIsWs _ c h2
  · unfold normSpace jsTrim
    cases h2 : lastOpt (dropTrailingWs ((collapseWs s).dropWhile jsIsWs)) with
    | none => rfl
    | some c => simpa using lastOpt_dropTrailingWs _ c h2

theorem chNat_jsToLowerChar (c : Char) :
    chNat (jsToLowerChar c) = if isUpperA c = true then chNat c + 32 else chNat c := by
  unfold jsToLowerChar
  split
  · rename_i h
    have hb : chNat c ≤ 90 := by
      simp only [isUpperA, decide_eq_true_eq] at h
      exact h.2
    exact char_toNat_ofNat _ (by omega)
  · rfl

theorem isUpperA_jsToLowerChar (c : Char) : isUpperA (jsToLowerChar c) = false := by
  have h := chNat_jsToLowerChar c
  by_cases hu : isUpperA c = true
  · rw [if_pos hu] at h
    simp only [isUpperA, decide_eq_true_eq] at hu
    simp only [isUpperA, decide_eq_false_iff_not]
    rw [h]
    omega
  · rw [if_neg hu] at h
    simp only [isUpperA, decide_eq_true_eq] at hu
    simp only [isUpperA, decide_eq_false_iff_not]
    rw [h]
    omega

theorem jsIsWs_jsToLowerChar (c : Char) : jsIsWs (jsToLowerChar c) = jsIsWs c := by
  have h := chNat_jsToLowerChar c
  by_cases hu : isUpperA c = true
  · rw [if_pos hu] at h
    simp only [isUpperA, decide_eq_true_eq] at hu
    simp only [jsIsWs, h]
    have h1 : ¬(chNat c + 32 = 32 ∨ chNat c + 32 = 9 ∨ chNat c + 32 = 10 ∨
        chNat c + 32 = 11 ∨ chNat c + 32 = 12 ∨ chNat c + 32 = 13 ∨ chNat c + 32 = 160 ∨
        chNat c + 32 = 8232 ∨ chNat c + 32 = 8233 ∨ chNat c + 32 = 65279) := by omega
    have h2 : ¬(chNat c = 32 ∨ chNat c = 9 ∨ chNat c = 10 ∨
        chNat c = 11 ∨ chNat c = 12 ∨ chNat c = 13 ∨ chNat c = 160 ∨
        chNat c = 8232 ∨ chNat c = 8233 ∨ chNat c = 65279) := by omega
    rw [decide_eq_false h1, decide_eq_false h2]
  · rw [if_neg hu] at h
    simp [jsIsWs, h]

theorem punctFull_jsToLowerChar (c : Char) (h : punctFull c = false) :
    punctFull (jsToLowerChar c) = false := by
  have hc := chNat_jsToLowerChar c
  by_cases hu : isUpperA c = true
  · rw [if_pos hu] at hc
    simp only [isUpperA, decide_eq_true_eq] at hu
    simp only [punctFull, punctShort, hc]
    have hnot : ¬((chNat c + 32 = 44 ∨ chNat c + 32 = 40 ∨ chNat c + 32 = 41 ∨ chNat c + 32 = 91 ∨
        chNat c + 32 = 93 ∨ chNat c + 32 = 58 ∨ chNat c + 32 = 59 ∨ chNat c + 32 = 33 ∨
        chNat c + 32 = 63 ∨ chNat c + 32 = 39 ∨ chNat c + 32 = 34 ∨ chNat c + 32 = 8482 ∨
        chNat c + 32 = 174 ∨ chNat c + 32 = 169) ∨ chNat c + 32 = 38 ∨ chNat c + 32 = 45 ∨
        chNat c + 32 = 8211 ∨ chNat c + 32 = 8212) := by omega
    simpa using hnot
  · have heq : jsToLowerChar c = c := by
      unfold jsToLowerChar
      rw [if_neg hu]
    rw [heq, h]

theorem jsToLowerChar_space : jsToLowerChar ' ' = ' ' := by decide

theorem mem_rwGo {c : Char} (p : List Char) :
    ∀ (s : List Char) (n : ℕ) (b : Bool), c ∈ rwGo p n b s → c = ' ' ∨ c ∈ s := by
  intro s
  induction s with
  | nil => intro n b h; cases n <;> simp [rwGo] at h
  | cons a t ih =>
    intro n b h
    cases n with
    | succ m =>
      simp only [rwGo] at h
      rcases ih m b h with h1 | h1
      · exact Or.inl h1
      · exact Or.inr (List.mem_cons_of_mem _ h1)
    | zero =>
      simp only [rwGo] at h
      split at h
      · rcases List.mem_cons.mp h with h1 | h1
        · exact Or.inl h1
        · rcases ih _ _ h1 with h2 | h2
          · exact Or.inl h2
          · exact Or.inr (List.mem_cons_of_mem _ h2)
      · rcases List.mem_cons.mp h with h1 | h1
        · exact Or.inr (h1 ▸ List.mem_cons_self a t)
        · rcases ih _ _ h1 with h2 | h2
          · exact Or.inl h2
          · exact Or.inr (List.mem_cons_of_mem _ h2)

theorem noUpperStr_of_subset (s t : List Char) (h : ∀ c ∈ s, c = ' ' ∨ c ∈ t)
    (ht : noUpperStr t = true) : noUpperStr s = true := by
  rw [noUpperStr, List.all_eq_true]
  intro c hc
  rcases h c hc with h1 | h1
  · subst h1; decide
  · rw [noUpperStr, List.all_eq_true] at ht
    exact ht c h1

theorem noPunctStr_of_subset (s t : List Char) (h : ∀ c ∈ s, c = ' ' ∨ c ∈ t)
    (ht : noPunctStr t = true) : noPunctStr s = true := by
  rw [noPunctStr, List.all_eq_true]
  intro c hc
  rcases h c hc with h1 | h1
  · subst h1; decide
  · rw [noPunctStr, List.all_eq_true] at ht
    exact ht c h1

theorem noUpperStr_jsToLower (s : List Char) : noUpperStr (jsToLower s) = true := by
  rw [noUpperStr, List.all_eq_true]
  intro c hc
  rcases List.mem_map.mp hc with ⟨d, _, hd⟩
  subst hd
  simp [isUpperA_jsToLowerChar]

theorem noUpperStr_replaceWordAll (p s : List Char) (h : noUpperStr s = true) :
    noUpperStr (replaceWordAll p s) = true :=
  noUpperStr_of_subset _ _ (fun _ hc => mem_rwGo p s 0 false hc) h

theorem foldl_preserve {α : Type} (P : List Char → Prop) (f : List Char → α → List Char)
    (hf : ∀ s a, P s → P (f s a)) : ∀ (l : List α) (s : List Char), P s → P (l.foldl f s) := by
  intro l
  induction l with
  | nil => intro s hs; exact hs
  | cons a t ih => intro s hs; exact ih _ (hf s a hs)

theorem noUpperStr_universalFillerPass (pw : List (List Char)) (s : List Char)
    (h : noUpperStr s = true) : noUpperStr (universalFillerPass pw s) = true := by
  unfold universalFillerPass
  refine foldl_preserve (fun s2 => noUpperStr s2 = true) _ (fun s2 phrase hs => ?_) _ _ h
  dsimp only
  split
  · exact hs
  · exact noUpperStr_replaceWordAll _ _ hs

theorem noUpperStr_categoryFillerPass (category : List Char) (pw : List (List Char))
    (s : List Char) (h : noUpperStr s = true) :
    noUpperStr (categoryFillerPass category pw s) = true := by
  unfold categoryFillerPass
  cases CATEGORY_FILLER category with
  | none => exact h
  | some fillers =>
    refine foldl_preserve (fun s2 => noUpperStr s2 = true) _ (fun s2 word hs => ?_) _ _ h
    dsimp only
    split
    · exact hs
    · exact noUpperStr_replaceWordAll _ _ hs

theorem noPunctStr_punctToSpace (s : List Char) :
    noPunctStr (punctToSpace punctFull s) = true := by
  rw [noPunctStr, List.all_eq_true]
  intro c hc
  rcases List.mem_map.mp hc with ⟨d, _, hd⟩
  by_cases hp : punctFull d = true
  · rw [if_pos hp] at hd
    subst hd; decide
  · rw [if_neg hp] at hd
    subst hd
    simpa using hp

theorem noUpperStr_punctToSpace (s : List Char) (h : noUpperStr s = true) :
    noUpperStr (punctToSpace punctFull s) = true := by
  rw [noUpperStr, List.all_eq_true]
  intro c hc
  rcases List.mem_map.mp hc with ⟨d, hdm, hd⟩
  by_cases hp : punctFull d = true
  · rw [if_pos hp] at hd
    subst hd; decide
  · rw [if_neg hp] at hd
    subst hd
    rw [noUpperStr, List.all_eq_true] at h
    exact h d hdm

theorem noUpperStr_normSpace (s : List Char) (h : noUpperStr s = true) :
    noUpperStr (normSpace s) = true :=
  noUpperStr_of_subset _ _ (fun _ hc => mem_normSpace s hc) h

theorem noPunctStr_normSpace (s : List Char) (h : noPunctStr s = true) :
    noPunctStr (normSpace s) = true :=
  noPunctStr_of_subset _ _ (fun _ hc => mem_normSpace s hc) h

theorem noPunctStr_jsToLower (s : List Char) (h : noPunctStr s = true) :
    noPunctStr (jsToLower s) = true := by
  rw [noPunctStr, List.all_eq_true]
  intro c hc
  rcases List.mem_map.mp hc with ⟨d, hdm, hd⟩
  subst hd
  rw [noPunctStr, List.all_eq_true] at h
  simpa using punctFull_jsToLowerChar d (by simpa using h d hdm)

theorem noTwoWs_map_jsToLowerChar :
    ∀ (s : List Char), noTwoWs s = true → noTwoWs (s.map jsToLowerChar) = true := by
  intro s
  induction s with
  | nil => intro h; exact h
  | cons a t ih =>
    intro h
    cases t with
    | nil => rfl
    | cons b u =>
      simp only [List.map_cons, noTwoWs, Bool.and_eq_true] at h ⊢
      refine ⟨?_, ih h.2⟩
      rw [jsIsWs_jsToLowerChar, jsIsWs_jsToLowerChar]
      exact h.1

theorem lastOpt_map (f : Char → Char) :
    ∀ (s : List Char), lastOpt (s.map f) = (lastOpt s).map f := by
  intro s
  induction s with
  | nil => rfl
  | cons a t ih =>
    cases t with
    | nil => rfl
    | cons b u => simpa [lastOpt] using ih

theorem wsNormalized_jsToLower (s : List Char) (h : wsNormalized s = true) :
    wsNormalized (jsToLower s) = true := by
  rw [wsNormalized, Bool.and_eq_true, Bool.and_eq_true, Bool.and_eq_true] at h ⊢
  obtain ⟨⟨⟨hall, htwo⟩, hhead⟩, hlast⟩ := h
  refine ⟨⟨⟨?_, noTwoWs_map_jsToLowerChar s htwo⟩, ?_⟩, ?_⟩
  · rw [List.all_eq_true] at hall ⊢
    intro c hc
    rcases List.mem_map.mp hc with ⟨d, hdm, hd⟩
    subst hd
    have hw := jsIsWs_jsToLowerChar d
    by_cases hws : jsIsWs d = true
    · have : d = ' ' := by simpa [hws] using hall d hdm
      subst this
      simp [jsToLowerChar_space]
    · simp [hw, hws]
  · rw [jsToLower, List.head?_map]
    cases hh : s.head? with
    | none => rfl
    | some c =>
      rw [hh] at hhead
      simpa [jsIsWs_jsToLowerChar] using hhead
  · rw [jsToLower, lastOpt_map]
    cases hh : lastOpt s with
    | none => rfl
    | some c =>
      rw [hh] at hlast
      simpa [jsIsWs_jsToLowerChar] using hlast

theorem parseInstalls_eq_of_match (s num : List Char) (suf : Option Char)
    (h0 : ¬(s = [] ∨ s = "N/A".toList))
    (h : matchInstalls (jsToUpper (jsTrim (punctRemove (fun c => c = '+' ∨ c = ',') s))) =
      some (num, suf)) :
    parseInstalls s = (jsParseFloatDD num).map (fun q => q * installsMultiplier suf) := by
  simp only [parseInstalls, if_neg h0, h]
  cases hf : jsParseFloatDD num <;> simp [hf]

theorem one_lt_log_ten : 1 < Real.log 10 := by
  rw [Real.lt_log_iff_exp_lt (by norm_num : (0:ℝ) < 10)]
  calc Real.exp 1 < 2.7182818286 := Real.exp_one_lt_d9
    _ < 10 := by norm_num

theorem log_ten_pow_seven : Real.log 10000000 = 7 * Real.log 10 := by
  rw [show (10000000:ℝ) = 10 ^ (7:ℕ) by norm_num, Real.log_pow]
  norm_num

theorem logb_ten_1e7_lower : 7 ≤ Real.logb 10 10000001 := by
  have h7 : Real.logb 10 (10000000:ℝ) = 7 := by
    rw [show (10000000:ℝ) = 10 ^ (7:ℕ) by norm_num, Real.logb_pow,
      Real.logb_self_eq_one (by norm_num)]
    norm_num
  calc (7:ℝ) = Real.logb 10 (10000000:ℝ) := h7.symm
    _ ≤ Real.logb 10 10000001 :=
      Real.logb_le_logb_of_le (by norm_num) (by norm_num) (by norm_num)

theorem logb_ten_1e7_upper : Real.logb 10 10000001 ≤ 7 + 1 / 10000000 := by
  have hlog10 : (0:ℝ) < Real.log 10 := lt_trans one_pos one_lt_log_ten
  have hdiv : Real.log ((10000001:ℝ) / 10000000) = Real.log 10000001 - Real.log 10000000 :=
    Real.log_div (by norm_num) (by norm_num)
  have hsub : Real.log ((10000001:ℝ) / 10000000) ≤ 1 / 10000000 := by
    have h := Real.log_le_sub_one_of_pos (x := (10000001:ℝ) / 10000000) (by norm_num)
    calc Real.log ((10000001:ℝ) / 10000000) ≤ (10000001:ℝ) / 10000000 - 1 := h
      _ = 1 / 10000000 := by norm_num
  have hup : Real.log 10000001 ≤ 7 * Real.log 10 + 1 / 10000000 := by
    linarith [hdiv, hsub, log_ten_pow_seven]
  rw [Real.logb, div_le_iff₀ hlog10]
  have h1 : (1:ℝ) ≤ Real.log 10 := le_of_lt one_lt_log_ten
  nlinarith [hup, h1, hlog10]

theorem score_85 :
    calculateOpportunityScore
      { competitorsCount := 0, avgRating := none, maxRating := none,
        gpRating := 4.2, installs := Installs.str ("10M+".toList) } = 85 := by
  have hpi : parseInstalls ("10M+".toList) = some 10000000 := by
    rw [parseInstalls_eq_of_match _ ("10".toList) (some 'M') (by decide) (by decide)]
    rw [show jsParseFloatDD "10".toList = some (natDigits "10".toList : ℚ) from by decide]
    rw [show natDigits "10".toList = 10 from by decide]
    rw [show installsMultiplier (some 'M') = 1000000 from by decide]
    norm_num
  have hin : installsNum (Installs.str ("10M+".toList)) = some (10000000 : ℝ) := by
    simp only [installsNum, hpi, Option.map_some]
    norm_num
  set L := Real.logb 10 10000001 with hL
  have hLl : 7 ≤ L := logb_ten_1e7_lower
  have hLu : L ≤ 7 + 1 / 10000000 := logb_ten_1e7_upper
  simp only [calculateOpportunityScore, hin]
  have h1 : max (0:ℝ) (1 - 0 / 20) = 1 := by norm_num
  have h4 : max (0:ℝ) (min 1 (((4.2:ℝ) - 2.5) / 2)) = 0.85 := by norm_num
  have hif : (if (0:ℝ) < 10000000 then min 1 (Real.logb 10 (10000000 + 1) / 9) else 0) =
      min 1 (L / 9) := by
    rw [if_pos (by norm_num)]
    norm_num [hL]
  have hmin : min (1:ℝ) (L / 9) = L / 9 := by
    apply min_eq_right
    rw [div_le_one (by norm_num)]
    linarith
  rw [h1, hif, hmin, h4]
  have hround :
      round ((100:ℝ) * (0.30 * 1 + 0.25 * 0.7 + 0.25 * (L / 9) + 0.10 * 0.85 + 0.10 * 1.0)) = 85 := by
    rw [round_eq, Int.floor_eq_iff]
    constructor
    · push_cast; nlinarith
    · push_cast; nlinarith
  rw [hround]
  norm_num

theorem jsOrZero_eq (x : ℝ) : jsOrZero x = x := by
  unfold jsOrZero
  split
  · simp_all
  · rfl

theorem scoreShell_mono (x y : ℝ) (h : x ≤ y) :
    max 0 (min 100 (round (100 * x))) ≤ max 0 (min 100 (round (100 * y))) := by
  have hr : round ((100:ℝ) * x) ≤ round ((100:ℝ) * y) := by
    rw [round_eq, round_eq]
    exact Int.floor_le_floor (by linarith)
  exact max_le_max le_rfl (min_le_min le_rfl hr)

theorem f3_mono (i1 i2 : ℝ) (h : i1 ≤ i2) :
    (if 0 < i1 then min 1 (Real.logb 10 (i1 + 1) / 9) else 0) ≤
    (if 0 < i2 then min 1 (Real.logb 10 (i2 + 1) / 9) else 0) := by
  by_cases h1 : 0 < i1
  · rw [if_pos h1, if_pos (lt_of_lt_of_le h1 h)]
    have hlog := Real.logb_le_logb_of_le (b := 10) (by norm_num) (by linarith : (0:ℝ) < i1 + 1)
      (by linarith : i1 + 1 ≤ i2 + 1)
    exact min_le_min le_rfl (by linarith)
  · rw [if_neg h1]
    by_cases h2 : 0 < i2
    · rw [if_pos h2]
      have hlog : 0 ≤ Real.logb 10 (i2 + 1) := Real.logb_nonneg (by norm_num) (by linarith)
      exact le_min (by norm_num) (by linarith)
    · rw [if_neg h2]

theorem score_formula (r : ScoreInput) :
    calculateOpportunityScore r =
      max 0 (min 100 (round (100 * (
        0.30 * max 0 (1 - r.competitorsCount / 20) +
        0.25 * (match r.avgRating with
          | none => (0.7:ℝ)
          | some avg => max 0 (1 - (avg - 2) / 3)) +
        0.25 * (match installsNum r.installs with
          | none => (0:ℝ)
          | some i => if i ≤ 0 then 0 else min 1 (Real.logb 10 (i + 1) / 9)) +
        0.10 * max 0 (min 1 ((r.gpRating - 2.5) / 2)) +
        0.10 * (match r.maxRating with
          | none => (1.0:ℝ)
          | some mx => max 0 (1 - (mx - 2) / 3)))))) := by
  have hf3 : (match installsNum r.installs with
      | none => (0:ℝ)
      | some i => if 0 < i then min 1 (Real.logb 10 (i + 1) / 9) else 0) =
      (match installsNum r.installs with
      | none => (0:ℝ)
      | some i => if i ≤ 0 then 0 else min 1 (Real.logb 10 (i + 1) / 9)) := by
    cases installsNum r.installs with
    | none => rfl
    | some i =>
      by_cases hi : 0 < i
      · show (if 0 < i then min 1 (Real.logb 10 (i + 1) / 9) else 0) =
          (if i ≤ 0 then 0 else min 1 (Real.logb 10 (i + 1) / 9))
        rw [if_pos hi, if_neg (not_le.mpr hi)]
      · show (if 0 < i then min 1 (Real.logb 10 (i + 1) / 9) else 0) =
          (if i ≤ 0 then 0 else min 1 (Real.logb 10 (i + 1) / 9))
        rw [if_neg hi, if_pos (not_lt.mp hi)]
  simp only [calculateOpportunityScore]
  rw [hf3]

theorem wordJaccard_nonneg (a b : List Char) : 0 ≤ wordJaccard a b := by
  simp only [wordJaccard]
  split
  · exact le_refl 0
  · positivity

theorem calculateRelevance_eq (c : Competitor) (q t : List Char) :
    calculateRelevance c q t =
      min 1 (0.6 * max (wordJaccard c.name q) (wordJaccard c.name t) +
        (if substringMatch c.name q ∨ substringMatch c.name t then (0.3:ℚ) else 0) +
        (if c.rating ≠ none then (0.1:ℚ) else 0)) := by
  unfold calculateRelevance
  split_ifs with h1 h2 h3
  · ring_nf
  · ring_nf
  · ring_nf
  · ring_nf

theorem calculateRelevance_nonneg (c : Competitor) (q t : List Char) :
    0 ≤ calculateRelevance c q t := by
  rw [calculateRelevance_eq]
  have hj := wordJaccard_nonneg c.name q
  have hj2 := wordJaccard_nonneg c.name t
  have hmax : 0 ≤ max (wordJaccard c.name q) (wordJaccard c.name t) := le_max_of_le_left hj
  apply le_min (by norm_num)
  split_ifs <;> nlinarith

theorem calculateRelevance_le_one (c : Competitor) (q t : List Char) :
    calculateRelevance c q t ≤ 1 := by
  unfold calculateRelevance
  exact min_le_left 1 _

theorem applyRelevance_single (c : Competitor) (q t : List Char) :
    ((applyRelevance q t [c]).head?.bind (fun c2 => c2.relevant)) =
      some (decide (RELEVANCE_THRESHOLD ≤ calculateRelevance c q t)) := by
  simp [applyRelevance]


/-- Claim C1: for every input record, `calculateOpportunityScore` returns
`clamp(round(100 * (0.30*F1 + 0.25*F2 + 0.25*F3 + 0.10*F4 + 0.10*F5)), 0, 100)`
with the five factors as specified (F3 is 0 when the parsed installs
value is at most 0, and also when `parseFloat` yielded `NaN`); and for
competitorsCount 0, null ratings, installs "10M+", gpRating 4.2 the
score is exactly 85. -/
theorem claim_C1_opportunity_score_formula_and_value :
    (∀ r : ScoreInput, calculateOpportunityScore r =
      max 0 (min 100 (round (100 * (
        0.30 * max 0 (1 - r.competitorsCount / 20) +
        0.25 * (match r.avgRating with
          | none => (0.7:ℝ)
          | some avg => max 0 (1 - (avg - 2) / 3)) +
        0.25 * (match installsNum r.installs with
          | none => (0:ℝ)
          | some i => if i ≤ 0 then 0 else min 1 (Real.logb 10 (i + 1) / 9)) +
        0.10 * max 0 (min 1 ((r.gpRating - 2.5) / 2)) +
        0.10 * (match r.maxRating with
          | none => (1.0:ℝ)
          | some mx => max 0 (1 - (mx - 2) / 3))))))) ∧
    calculateOpportunityScore
      { competitorsCount := 0, avgRating := none, maxRating := none,
        gpRating := 4.2, installs := Installs.str ("10M+".toList) } = 85 :=
  ⟨score_formula, score_85⟩

/-- Claim C2: `calculateRelevance` equals
`min(1, 0.6*bestJaccard + substring bonus 0.3 + rating bonus 0.1)`,
always lies in `[0, 1]`, and the scoring loop marks a competitor
relevant exactly when the score reaches the 0.15 threshold. -/
theorem claim_C2_relevance_formula_bounds_threshold :
    ∀ (c : Competitor) (q t : List Char),
      calculateRelevance c q t =
        min 1 (0.6 * max (wordJaccard c.name q) (wordJaccard c.name t) +
          (if substringMatch c.name q ∨ substringMatch c.name t then (0.3:ℚ) else 0) +
          (if c.rating ≠ none then (0.1:ℚ) else 0)) ∧
      0 ≤ calculateRelevance c q t ∧ calculateRelevance c q t ≤ 1 ∧
      ((applyRelevance q t [c]).head?.bind (fun c2 => c2.relevant)) =
        some (decide (RELEVANCE_THRESHOLD ≤ calculateRelevance c q t)) :=
  fun c q t => ⟨calculateRelevance_eq c q t, calculateRelevance_nonneg c q t,
    calculateRelevance_le_one c q t, applyRelevance_single c q t⟩

/-- Claim C3 counterexample: on the non-empty title "a" the query
cleanup returns "a" itself, whose length is 1, not ≥ 2. -/
theorem claim_C3_counterexample_single_char_title :
    cleanSearchQuery ("a".toList) [] = "a".toList ∧
    (cleanSearchQuery ("a".toList) []).length < 2 := by decide

/-- Claim C3 amended: for every non-empty input title (and any
category), `cleanSearchQuery` returns a non-empty string; the length-2
floor does not hold because the final guard returns the raw title. -/
theorem claim_C3_amended_nonempty (title category : List Char) (h : title ≠ []) :
    cleanSearchQuery title category ≠ [] := by
  obtain ⟨x, y, hs⟩ : ∃ x y, cleanSearchQuery title category =
      if (jsWordsOf title).length ≤ 2 then (if 2 ≤ x.length then x else title)
      else (if 2 ≤ y.length then y else title) := ⟨_, _, rfl⟩
  rw [hs]
  split_ifs with h1 h2 h3
  · exact List.length_pos.mp (by omega)
  · exact h
  · exact List.length_pos.mp (by omega)
  · exact h

/-- Witness for claim C3 amended, at the concrete title "a". -/
theorem claim_C3_amended_nonempty_witness :
    ("a".toList ≠ ([] : List Char)) ∧ cleanSearchQuery ("a".toList) [] ≠ [] :=
  ⟨by decide, claim_C3_amended_nonempty ("a".toList) [] (by decide)⟩

/-- Claim C4 counterexample: the two-word title "Ab, Cd" is cleaned to
"Ab Cd", which is not lower-cased (the two-word guard path skips
`toLowerCase`). -/
theorem claim_C4_counterexample_two_word_case_preserved :
    cleanSearchQuery ("Ab, Cd".toList) [] = "Ab Cd".toList ∧
    noUpperStr (cleanSearchQuery ("Ab, Cd".toList) []) = false := by decide

/-- Claim C4 amended: for titles of more than two words, the produced
query is either the raw-title final fallback or is lower-cased,
stripped of the full punctuation class, and whitespace-collapsed. -/
theorem claim_C4_amended_long_title_normalized (title category : List Char)
    (h : 2 < (jsWordsOf title).length) :
    cleanSearchQuery title category = title ∨
    (noUpperStr (cleanSearchQuery title category) = true ∧
     noPunctStr (cleanSearchQuery title category) = true ∧
     wsNormalized (cleanSearchQuery title category) = true) := by
  have hn : ¬((jsWordsOf title).length ≤ 2) := not_le.mpr h
  simp only [cleanSearchQuery, if_neg hn]
  have hup : noUpperStr (categoryFillerPass category (protectedWordsOf (jsWordsOf title))
      (universalFillerPass (protectedWordsOf (jsWordsOf title)) (jsToLower title))) = true :=
    noUpperStr_categoryFillerPass _ _ _
      (noUpperStr_universalFillerPass _ _ (noUpperStr_jsToLower title))
  split_ifs with hg1 hg2 hg3
  · refine Or.inr ⟨noUpperStr_jsToLower _, ?_, ?_⟩
    · exact noPunctStr_jsToLower _ (noPunctStr_normSpace _ (noPunctStr_punctToSpace title))
    · exact wsNormalized_jsToLower _ (wsNormalized_normSpace _)
  · exact Or.inl rfl
  · refine Or.inr ⟨?_, ?_, ?_⟩
    · exact noUpperStr_normSpace _ (noUpperStr_punctToSpace _ hup)
    · exact noPunctStr_normSpace _ (noPunctStr_punctToSpace _)
    · exact wsNormalized_normSpace _
  · exact Or.inl rfl

/-- Witness for claim C4 amended, at the three-word title
"alpha beta gamma". -/
theorem claim_C4_amended_long_title_normalized_witness :
    2 < (jsWordsOf ("alpha beta gamma".toList)).length ∧
    (cleanSearchQuery ("alpha beta gamma".toList) [] = "alpha beta gamma".toList ∨
      (noUpperStr (cleanSearchQuery ("alpha beta gamma".toList) []) = true ∧
       noPunctStr (cleanSearchQuery ("alpha beta gamma".toList) []) = true ∧
       wsNormalized (cleanSearchQuery ("alpha beta gamma".toList) []) = true)) :=
  ⟨by decide, claim_C4_amended_long_title_normalized ("alpha beta gamma".toList) [] (by decide)⟩

/-- Claim C5 counterexample: "WhatsApp Messenger" classifies as mixed,
not brand (the classifier never consults the category filler table),
and the cleaned query is not "whatsapp" (the two-word guard leaves the
title intact up to punctuation). -/
theorem claim_C5_counterexample_whatsapp_not_brand :
    (classifyTitle ("WhatsApp Messenger".toList)).type ≠ TitleType.brand ∧
    cleanSearchQuery ("WhatsApp Messenger".toList) ("Communication".toList) ≠
      "whatsapp".toList := by decide

/-- Claim C5 amended: on title "WhatsApp Messenger" with category
"Communication" the classifier returns mixed with brand word "WhatsApp"
and other word "Messenger", the cleaned query is the title unchanged
(two-word path: punctuation-only cleanup, no lower-casing and no filler
stripping), and the pipeline keeps the query untranslated because the
type is not descriptive. -/
theorem claim_C5_amended_whatsapp_mixed_untranslated :
    classifyTitle ("WhatsApp Messenger".toList) =
      { type := TitleType.mixed, brandWords := ["WhatsApp".toList],
        otherWords := ["Messenger".toList] } ∧
    cleanSearchQuery ("WhatsApp Messenger".toList) ("Communication".toList) =
      "WhatsApp Messenger".toList ∧
    ∀ (gp : ℝ) (inst : List Char) (tr : List Char → List Char) (cands : List Competitor),
      (checkRuStore ("WhatsApp Messenger".toList) ("Communication".toList) gp inst tr
        cands).searchQuery = "WhatsApp Messenger".toList := by
  refine ⟨by decide, by decide, fun gp inst tr cands => ?_⟩
  simp only [checkRuStore]
  rw [if_neg (by decide : ¬(classifyTitle ("WhatsApp Messenger".toList)).type =
    TitleType.descriptive)]
  decide

/-- Claim C6: `classifyTitle` is total and deterministic, returning one
of the three kinds, with kind brand iff brand words exist and no
meaningful other word survives the filler filter, mixed iff both lists
are non-empty, and descriptive iff there is no brand word. -/
theorem claim_C6_classify_total_partition (title : List Char) :
    ((classifyTitle title).type = TitleType.brand ∨
      (classifyTitle title).type = TitleType.descriptive ∨
      (classifyTitle title).type = TitleType.mixed) ∧
    ((classifyTitle title).type = TitleType.brand ↔
      (classifyTitle title).brandWords ≠ [] ∧ (classifyTitle title).otherWords = []) ∧
    ((classifyTitle title).type = TitleType.mixed ↔
      (classifyTitle title).brandWords ≠ [] ∧ (classifyTitle title).otherWords ≠ []) ∧
    ((classifyTitle title).type = TitleType.descriptive ↔
      (classifyTitle title).brandWords = []) := by
  obtain ⟨bw, mo, h⟩ : ∃ bw mo, classifyTitle title =
      (if bw ≠ [] ∧ mo = [] then ⟨TitleType.brand, bw, mo⟩
       else if bw ≠ [] ∧ mo ≠ [] then ⟨TitleType.mixed, bw, mo⟩
       else ⟨TitleType.descriptive, bw, mo⟩ : TitleClassification) := ⟨_, _, rfl⟩
  rw [h]
  by_cases h1 : bw = [] <;> by_cases h2 : mo = [] <;> simp [h1, h2]

/-- Claim C7: `calculateOpportunityScore` is monotonic in three arguments,
all else fixed: antitone in `competitorsCount`, monotone in `gpRating`,
and monotone in a numeric `installs` value. -/
theorem claim_C7_opportunity_score_monotonic :
    (∀ (a mx : Option ℝ) (g : ℝ) (i : Installs) (c1 c2 : ℝ), c1 ≤ c2 →
      calculateOpportunityScore ⟨c2, a, mx, g, i⟩ ≤ calculateOpportunityScore ⟨c1, a, mx, g, i⟩) ∧
    (∀ (c : ℝ) (a mx : Option ℝ) (i : Installs) (g1 g2 : ℝ), g1 ≤ g2 →
      calculateOpportunityScore ⟨c, a, mx, g1, i⟩ ≤ calculateOpportunityScore ⟨c, a, mx, g2, i⟩) ∧
    (∀ (c : ℝ) (a mx : Option ℝ) (g : ℝ) (x1 x2 : ℝ), x1 ≤ x2 →
      calculateOpportunityScore ⟨c, a, mx, g, Installs.num x1⟩ ≤
        calculateOpportunityScore ⟨c, a, mx, g, Installs.num x2⟩) := by
  refine ⟨fun a mx g i c1 c2 h => ?_, fun c a mx i g1 g2 h => ?_, fun c a mx g x1 x2 h => ?_⟩
  · simp only [calculateOpportunityScore]
    apply scoreShell_mono
    have hf1 : max (0:ℝ) (1 - c2 / 20) ≤ max 0 (1 - c1 / 20) :=
      max_le_max le_rfl (by linarith)
    linarith
  · simp only [calculateOpportunityScore]
    apply scoreShell_mono
    have hf4 : max (0:ℝ) (min 1 ((g1 - 2.5) / 2)) ≤ max 0 (min 1 ((g2 - 2.5) / 2)) :=
      max_le_max le_rfl (min_le_min le_rfl (by linarith))
    linarith
  · simp only [calculateOpportunityScore, installsNum, jsOrZero_eq]
    apply scoreShell_mono
    have hf3 := f3_mono x1 x2 h
    linarith



/-- Witness for claim C7, at concrete competitor counts 0 ≤ 1, ratings
3 ≤ 4, and numeric installs 5 ≤ 6. -/
theorem claim_C7_opportunity_score_monotonic_witness :
    calculateOpportunityScore ⟨1, none, none, 0, Installs.num 0⟩ ≤
      calculateOpportunityScore ⟨0, none, none, 0, Installs.num 0⟩ ∧
    calculateOpportunityScore ⟨0, none, none, 3, Installs.num 0⟩ ≤
      calculateOpportunityScore ⟨0, none, none, 4, Installs.num 0⟩ ∧
    calculateOpportunityScore ⟨0, none, none, 0, Installs.num 5⟩ ≤
      calculateOpportunityScore ⟨0, none, none, 0, Installs.num 6⟩ :=
  ⟨claim_C7_opportunity_score_monotonic.1 none none 0 (Installs.num 0) 0 1 (by norm_num),
   claim_C7_opportunity_score_monotonic.2.1 0 none none (Installs.num 0) 3 4 (by norm_num),
   claim_C7_opportunity_score_monotonic.2.2 0 none none 0 5 6 (by norm_num)⟩

/-- Claim C8: `parseInstalls` strips plus and comma, trims and
upper-cases, matches the digits-dot-suffix pattern, multiplies by the
suffix table; "1,234K+" gives 1234000, "N/A", the empty string, and
every non-matching string give 0. -/
theorem claim_C8_parse_installs :
    parseInstalls ("1,234K+".toList) = some 1234000 ∧
    parseInstalls ("N/A".toList) = some 0 ∧
    parseInstalls ([] : List Char) = some 0 ∧
    (∀ s : List Char, ¬(s = [] ∨ s = "N/A".toList) →
      matchInstalls (jsToUpper (jsTrim (punctRemove (fun c => c = '+' ∨ c = ',') s))) = none →
      parseInstalls s = some 0) ∧
    (∀ (s num : List Char) (suf : Option Char), ¬(s = [] ∨ s = "N/A".toList) →
      matchInstalls (jsToUpper (jsTrim (punctRemove (fun c => c = '+' ∨ c = ',') s))) =
        some (num, suf) →
      parseInstalls s = (jsParseFloatDD num).map (fun q => q * installsMultiplier suf)) := by
  refine ⟨?_, by decide, by decide, fun s h0 hm => ?_, parseInstalls_eq_of_match⟩
  · rw [parseInstalls_eq_of_match _ ("1234".toList) (some 'K') (by decide) (by decide)]
    rw [show jsParseFloatDD "1234".toList = some (natDigits "1234".toList : ℚ) from by decide]
    rw [show natDigits "1234".toList = 1234 from by decide]
    rw [show installsMultiplier (some 'K') = 1000 from by decide]
    norm_num
  · simp only [parseInstalls, if_neg h0, hm]

/-- Witness for claim C8, at the non-matching string "xyz" and the
matching string "2.5M". -/
theorem claim_C8_parse_installs_witness :
    parseInstalls ("xyz".toList) = some 0 ∧
    parseInstalls ("2.5M".toList) =
      (jsParseFloatDD ("2.5".toList)).map (fun q => q * installsMultiplier (some 'M')) :=
  ⟨claim_C8_parse_installs.2.2.2.1 ("xyz".toList) (by decide) (by decide),
   claim_C8_parse_installs.2.2.2.2 ("2.5M".toList) ("2.5".toList) (some 'M')
     (by decide) (by decide)⟩

/-- Claim C9: on an empty candidate list, `checkRuStore` returns the
complete report with the built query and URL, zero competitors, empty
top list, null ratings, and a score computed by the same
`calculateOpportunityScore` on the zero-competitor statistics. -/
theorem claim_C9_zero_candidates_full_report (title category : List Char) (gpRating : ℝ)
    (installs : List Char) (translate : List Char → List Char) :
    checkRuStore title category gpRating installs translate [] =
      { searchQuery :=
          if (classifyTitle title).type = TitleType.descriptive then
            translate (cleanSearchQuery title category)
          else cleanSearchQuery title category
        searchUrl := RUSTORE_SEARCH_URL ++ encodeURIComponent
          (if (classifyTitle title).type = TitleType.descriptive then
            translate (cleanSearchQuery title category)
          else cleanSearchQuery title category)
        competitorsCount := 0
        topCompetitors := []
        avgRating := none
        maxRating := none
        opportunityScore := calculateOpportunityScore
          { competitorsCount := 0, avgRating := none, maxRating := none,
            gpRating := jsOrZero gpRating,
            installs := Installs.str (if installs = [] then "N/A".toList else installs) } } := by
  simp only [checkRuStore, applyRelevance, List.map_nil, List.filter_nil, List.length_nil,
    List.filterMap_nil, List.mergeSort_nil, List.take_nil, lt_irrefl, if_false, Nat.cast_zero,
    Option.map_none]
  rfl

/-- Claim C10 counterexample: the scoring loop writes the relevance and
relevant flags onto the records of the input array itself; after the
loop the array no longer holds the original records. -/
theorem claim_C10_counterexample_flags_written_in_place :
    applyRelevance ("abc".toList) ("abc".toList) [sampleCompetitor] ≠ [sampleCompetitor] ∧
    ((applyRelevance ("abc".toList) ("abc".toList) [sampleCompetitor]).head?.bind
      Competitor.relevance) ≠ none := by
  constructor
  · simp [applyRelevance, sampleCompetitor]
  · simp [applyRelevance]

/-- Claim C10 amended: relevance scoring preserves every record's name,
category, rating and url, but assigns the relevance and relevant fields
on the records of the input array in place rather than on separately
derived values. -/
theorem claim_C10_amended_fields_preserved_flags_in_place :
    ∀ (q t : List Char) (cs : List Competitor),
      (applyRelevance q t cs).map Competitor.name = cs.map Competitor.name ∧
      (applyRelevance q t cs).map Competitor.category = cs.map Competitor.category ∧
      (applyRelevance q t cs).map Competitor.rating = cs.map Competitor.rating ∧
      (applyRelevance q t cs).map Competitor.url = cs.map Competitor.url ∧
      ∀ c2 ∈ applyRelevance q t cs, c2.relevance ≠ none ∧ c2.relevant ≠ none := by
  intro q t cs
  refine ⟨?_, ?_, ?_, ?_, fun c2 hc2 => ?_⟩
  · simp [applyRelevance, List.map_map, Function.comp]
  · simp [applyRelevance, List.map_map, Function.comp]
  · simp [applyRelevance, List.map_map, Function.comp]
  · simp [applyRelevance, List.map_map, Function.comp]
  · simp only [applyRelevance, List.mem_map] at hc2
    obtain ⟨a, _, ha⟩ := hc2
    rw [← ha]
    simp

/-- Witness for claim C10 amended, at a singleton competitor list. -/
theorem claim_C10_amended_fields_preserved_flags_in_place_witness :
    (applyRelevance ("abc".toList) ("abc".toList) [sampleCompetitor]).map Competitor.name =
      [sampleCompetitor].map Competitor.name ∧
    ((applyRelevance ("abc".toList) ("abc".toList) [sampleCompetitor]).head?.bind
      Competitor.relevance) ≠ none := by
  have h := claim_C10_amended_fields_preserved_flags_in_place ("abc".toList) ("abc".toList)
    [sampleCompetitor]
  refine ⟨h.1, ?_⟩
  have hm := h.2.2.2.2 ({ sampleCompetitor with
      relevance := some (calculateRelevance sampleCompetitor ("abc".toList) ("abc".toList)),
      relevant := some (decide (RELEVANCE_THRESHOLD ≤
        calculateRelevance sampleCompetitor ("abc".toList) ("abc".toList))) })
    (by simp [applyRelevance])
  exact hm.1
